import Mathlib

/-!
Verification development for the PDF extraction pipeline in
`server/services/pdf_processor.py` (class `PDFProcessor`).

The Python source is shallowly embedded: Python `str` values are modelled as
`List Char` (a Python string is a sequence of Unicode code points), dict-based
records (`Segment`, `Block`, the result envelope, batch descriptors) are
modelled as Lean structures with value semantics, and the effectful
orchestrator (`extract_text_from_pdf` / `batch_process_pdf`) is modelled as a
pure function over an explicit cache state, an explicit document-content
input (what `fitz.open` / `page.get_text` would yield or raise), and an
explicit elapsed-time input (what the two `time.time()` calls measure).
-/

/-- Python `str` modelled as its sequence of code points. -/
abbrev Str := List Char

/-- Model of Python's `\s` (and of the character class stripped by
`str.strip()`): ASCII whitespace.  Non-ASCII Unicode whitespace also matches
in Python; no text in this development depends on those code points. -/
def isWs (c : Char) : Bool :=
  c = ' ' || c = '\t' || c = '\n' || c = '\r' || c = '\x0b' || c = '\x0c'

/-- Model of Python's `\d` (decimal digit); restricted to ASCII digits,
which is what the page-number heuristic in the source is aimed at. -/
def isPyDigit (c : Char) : Bool := c.isDigit

/-- The lookbehind class `[.!?]` of the sentence-boundary regex. -/
def isSentEnd (c : Char) : Bool := c = '.' || c = '!' || c = '?'

/-- The lookahead class `[A-Z가-힣]` of the sentence-boundary regex:
an uppercase Latin letter or a precomposed Hangul syllable
(U+AC00 – U+D7A3). -/
def isUpperOrHangul (c : Char) : Bool :=
  (65 ≤ c.toNat && c.toNat ≤ 90) || (0xAC00 ≤ c.toNat && c.toNat ≤ 0xD7A3)

/-- Python `str.strip()`: drop leading and trailing whitespace. -/
def pyStrip (s : Str) : Str :=
  (((s.dropWhile isWs).reverse).dropWhile isWs).reverse

/-- Python `" ".join(lines)`. -/
def joinSpace : List Str → Str
  | [] => []
  | [l] => l
  | l :: ls => l ++ ' ' :: joinSpace ls

/-- Python `re.match(r"^\d+$", text)` on an already-stripped `text`:
the whole (nonempty) string consists of digits. -/
def matchAllDigits (s : Str) : Bool := !s.isEmpty && s.all isPyDigit

/-!
## The sentence-boundary regex

`sentence_pattern = re.compile(r'(?<=[.!?])\s+(?=[A-Z가-힣])')` and
`sentence_pattern.split(text)`.

A match of the pattern is a maximal whitespace run whose immediately
preceding character is in `[.!?]` and whose immediately following character
is in `[A-Z가-힣]` (the greedy `\s+` cannot match a shorter prefix of the run,
since the lookahead would then see a whitespace character, and a match cannot
start in the middle of a run, since the lookbehind would then see a
whitespace character).  `re.split` removes the matched whitespace and returns
the pieces in between.

`splitAux prevEnd ws acc rest` scans `rest`; `acc` is the piece accumulated
so far, `ws` is the pending (not yet attributed) whitespace run, and
`prevEnd` records whether the last non-whitespace character read was in
`[.!?]`.
-/

def splitAux (prevEnd : Bool) (ws acc : Str) : Str → List Str
  | [] => [acc ++ ws]
  | c :: cs =>
    if isWs c then
      splitAux prevEnd (ws ++ [c]) acc cs
    else if prevEnd && !ws.isEmpty && isUpperOrHangul c then
      acc :: splitAux (isSentEnd c) [] [c] cs
    else
      splitAux (isSentEnd c) [] (acc ++ ws ++ [c]) cs

/-- `sentence_pattern.split(text)`. -/
def splitChars (s : Str) : List Str := splitAux false [] [] s

/-!
## Data model

`Block` / `Line` / `Span` mirror the dict structure returned by
`page.get_text("dict")`, plus the `page` key the extraction loop adds.
`bbox` is `(x0, y0, x1, y1)`; the source's float coordinates are modelled as
integers (only their ordering and differences are used). -/

structure TextSpan where
  text : Str
deriving DecidableEq

structure TextLine where
  spans : List TextSpan
deriving DecidableEq

structure Block where
  btype : Nat                  -- the `"type"` key; 0 = text block
  bbox : Int × Int × Int × Int -- the `"bbox"` key (x0, y0, x1, y1)
  lines : List TextLine        -- the `"lines"` key
  page : Nat                   -- the `"page"` key added by the extraction loop
deriving DecidableEq

/-- The segment dicts built by `_process_blocks` (and rewritten by
`segment_into_sentences`).  `original_segment_id` models the optional
`"original_segment_id"` key (`none` = key absent). -/
structure Segment where
  id : Nat
  source : Str
  page : Nat
  bbox : Int × Int × Int × Int
  position : Int × Int × Int × Int   -- x, y, width, height
  original_segment_id : Option Nat := none
deriving DecidableEq

/-!
## `_process_blocks`
-/

/-- `line_text`: concatenation of the line's span texts (no separator). -/
def lineText (l : TextLine) : Str := (l.spans.map TextSpan.text).flatten

/-- The inner line loop: keep each (unstripped) `line_text` whose stripped
form is non-empty. -/
def blockLines (b : Block) : List Str :=
  (b.lines.map lineText).filter (fun t => !(pyStrip t).isEmpty)

/-- The segment dict built for a surviving block. -/
def mkSegment (sid : Nat) (b : Block) (text : Str) : Segment :=
  { id := sid
    source := text
    page := b.page + 1   -- 1-indexed for user display
    bbox := b.bbox
    position := (b.bbox.1, b.bbox.2.1,
                 b.bbox.2.2.1 - b.bbox.1, b.bbox.2.2.2 - b.bbox.2.1)
    original_segment_id := none }

/-- The body of the block loop, threading the `segment_id` counter. -/
def processBlocksAux (sid : Nat) : List Block → List Segment
  | [] => []
  | b :: rest =>
    if b.btype ≠ 0 then processBlocksAux sid rest else
    let lines := blockLines b
    if lines.isEmpty then processBlocksAux sid rest else
    let text := pyStrip (joinSpace lines)
    if text.isEmpty then processBlocksAux sid rest else
    if matchAllDigits text || text.length < 5 then processBlocksAux sid rest else
    mkSegment sid b text :: processBlocksAux (sid + 1) rest

/-- `page_blocks.sort(key=lambda b: b["bbox"][1])`: Python's `list.sort` is a
stable ascending sort; modelled as a stable insertion sort on the `y0`
coordinate (an element is inserted after all elements with key `≤` its own,
preserving the original order of equal keys). -/
def insertByY (b : Block) : List Block → List Block
  | [] => [b]
  | c :: cs => if c.bbox.2.1 ≤ b.bbox.2.1 then c :: insertByY b cs else b :: c :: cs

def sortByY (l : List Block) : List Block :=
  l.foldl (fun acc b => insertByY b acc) []

/-- The page grouping of `_process_blocks`: the distinct `page` values in
first-occurrence order (Python dict insertion order) …  -/
def pageKeys (blocks : List Block) : List Nat := (blocks.map Block.page).dedup

/-- `sorted(pages.keys())`, modelled as an ascending insertion sort (the
keys are distinct, so stability is irrelevant). -/
def insertNat (n : Nat) : List Nat → List Nat
  | [] => [n]
  | m :: ms => if m ≤ n then m :: insertNat n ms else n :: m :: ms

def sortNats (l : List Nat) : List Nat :=
  l.foldl (fun acc n => insertNat n acc) []

/-- The pages iterated in `sorted(pages.keys())` order, each page's blocks
kept in original (append) order and then sorted by vertical position. -/
def orderedBlocks (blocks : List Block) : List Block :=
  (sortNats (pageKeys blocks)).flatMap
    (fun p => sortByY (blocks.filter (fun b => b.page = p)))

/-- `PDFProcessor._process_blocks`. -/
def process_blocks (blocks : List Block) : List Segment :=
  processBlocksAux 0 (orderedBlocks blocks)

/-!
## `segment_into_sentences`
-/

/-- `[s.strip() for s in sentences if s.strip()]`. -/
def cleanSentences (pieces : List Str) : List Str :=
  (pieces.filter (fun s => !(pyStrip s).isEmpty)).map pyStrip

/-- The inner emission loop: one new segment per sentence, copying the parent
and overriding `id`, `source`, and `original_segment_id`. -/
def emitSentences (seg : Segment) (sid : Nat) : List Str → List Segment
  | [] => []
  | s :: ss =>
    { seg with id := sid, source := s, original_segment_id := some seg.id } ::
      emitSentences seg (sid + 1) ss

/-- The body of `segment_into_sentences`, threading the `segment_id`
counter.  When no non-empty sentence pieces result, the original segment is
kept (renumbered only); otherwise one segment per sentence is emitted. -/
def sentAux (sid : Nat) : List Segment → List Segment
  | [] => []
  | seg :: rest =>
    let sentences := cleanSentences (splitChars seg.source)
    if sentences.isEmpty then
      { seg with id := sid } :: sentAux (sid + 1) rest
    else
      emitSentences seg sid sentences ++ sentAux (sid + sentences.length) rest

/-- `PDFProcessor.segment_into_sentences`. -/
def segment_into_sentences (segs : List Segment) : List Segment := sentAux 0 segs

/-!
## Batching (`batch_process_pdf`, lines 284-299)
-/

structure BatchInfo where
  batchId : Nat
  startSegmentId : Nat
  endSegmentId : Nat
  segmentCount : Nat
deriving DecidableEq

/-- `batch[0]["id"] if batch else 0`. -/
def firstId : List Segment → Nat
  | [] => 0
  | s :: _ => s.id

/-- `batch[-1]["id"] if batch else 0`. -/
def lastId (l : List Segment) : Nat :=
  match l.getLast? with
  | none => 0
  | some s => s.id

/-- The batch-construction loop
`for i in range(0, len(segments), max_segments_per_batch)`: the loop indices
are `i = j * k` for `j < ⌈n / k⌉` (`range(0, n, k)` has `(n + k - 1) / k`
elements for `k ≥ 1`; `k = 0` raises `ValueError` in Python and is outside
the modelled domain), the slice `segments[i : i + k]` is `drop i` then
`take k`, and `batchId = len(result["batches"])` is the loop iteration
index `j`. -/
def mkBatches (segs : List Segment) (k : Nat) : List BatchInfo :=
  (List.range ((segs.length + k - 1) / k)).map fun j =>
    let batch := (segs.drop (j * k)).take k
    { batchId := j
      startSegmentId := firstId batch
      endSegmentId := lastId batch
      segmentCount := batch.length }

/-- Python list slice `xs[a:b]` for `0 ≤ a ≤ b`. -/
def pySlice (xs : List Segment) (a b : Nat) : List Segment :=
  (xs.drop a).take (b - a)

/-!
## The result envelope and the cache
-/

/-- The `"metadata"` sub-dict of a result envelope.  `fromCache := false`
models the absence of the optional `"fromCache"` key; `none` models the
absence of the optional `"totalSegments"` / `"batchCount"` keys. -/
structure Metadata where
  fileName : String
  pageCount : Nat
  processingTimeMs : Nat
  extractionMethod : String
  fromCache : Bool := false
  totalSegments : Option Nat := none
  batchCount : Option Nat := none
deriving DecidableEq

/-- A result envelope.  `none` in `error` / `batches` / `initialSegments`
models the absence of the corresponding optional key. -/
structure Envelope where
  segments : List Segment
  metadata : Metadata
  error : Option String := none
  batches : Option (List BatchInfo) := none
  initialSegments : Option (List Segment) := none
deriving DecidableEq

/-- A persisted cache file: either it parses back into an envelope, or
`json.load` raises (`corrupt`), which the source logs and treats as a
miss. -/
inductive CacheEntry where
  | parseable (e : Envelope)
  | corrupt
deriving DecidableEq

/-- The cache directory contents: digest ↦ entry (`none` = no file). -/
def Cache := String → Option CacheEntry

/-- `json.dump` of the current envelope under the digest-derived name. -/
def cacheStore (c : Cache) (digest : String) (e : Envelope) : Cache :=
  fun d => if d = digest then some (.parseable e) else c d

/-!
## `extract_text_from_pdf`

External effects are explicit inputs:
  * `PdfFile.digest` is the MD5 content hash `get_file_hash` computes (a
    function of the file bytes only);
  * `PdfFile.openResult` is what `fitz.open(file_path)` yields: `.error msg`
    if it raises, otherwise the document's pages, each page being what
    `doc[i]` / `page.get_text("dict")` yields for it: `.error msg` if it
    raises, otherwise the raw block list (whose `page` field the loop then
    overwrites);
  * `elapsedMs` is `int((end_time - start_time) * 1000)` for this call;
  * `storeFails` is whether the best-effort cache write raises (logged and
    swallowed by the source).

The result records, besides the envelope and the updated cache directory,
whether `fitz.open` succeeded (`docOpened`), whether `doc.close()` was
executed before returning (`docClosed`), and how many `page.get_text` calls
were made (`pagesExtracted`), so that resource-handling and
no-reextraction claims can be stated. -/

structure PdfFile where
  name : String
  digest : String
  openResult : Except String (List (Except String (List Block)))

structure ExtractResult where
  envelope : Envelope
  cache : Cache
  docOpened : Bool
  docClosed : Bool
  pagesExtracted : Nat

/-- The page range of the extraction loop: `end_page` is normalized
(`end_page == -1 or end_page >= len(doc)` ⟹ `len(doc) - 1`), then
`range(start_page, end_page + 1)` is the (possibly empty) list of page
indices.  For a 0-page document the normalized end is `-1` and the range is
empty. -/
def pageIdxs (startPage : Nat) (endPage : Int) (n : Nat) : List Nat :=
  let endI : Int :=
    if endPage = -1 || endPage ≥ (n : Int) then (n : Int) - 1 else endPage
  if endI < (startPage : Int) then []
  else List.range' startPage (endI.toNat + 1 - startPage)

/-- The page loop: for each index, `doc[page_num]` / `page.get_text` either
raises (first component of the error: the message; second: how many
`get_text` calls were made, the raising one included) or yields blocks that
get their `page` field set and are appended to `all_blocks`. -/
def collectBlocks (pages : List (Except String (List Block))) :
    List Nat → Except (String × Nat) (List Block × Nat)
  | [] => .ok ([], 0)
  | i :: rest =>
    match pages[i]? with
    | none => .error ("page index out of range", 1)
    | some (.error msg) => .error (msg, 1)
    | some (.ok bs) =>
      match collectBlocks pages rest with
      | .error (m, c) => .error (m, c + 1)
      | .ok (blocks, c) => .ok ((bs.map fun b => { b with page := i }) ++ blocks, c + 1)

/-- `PDFProcessor.extract_text_from_pdf`.  `cds` is whether the processor
was constructed with a cache directory (`self.cache_dir` truthy). -/
def extract_text_from_pdf (cds : Bool) (file : PdfFile) (startPage : Nat)
    (endPage : Int) (useCache : Bool) (cache : Cache) (elapsedMs : Nat)
    (storeFails : Bool) : ExtractResult :=
  let md0 : Metadata :=
    { fileName := file.name, pageCount := 0, processingTimeMs := 0,
      extractionMethod := "PyMuPDF" }
  let hit : Option Envelope :=
    if useCache && cds then
      match cache file.digest with
      | some (.parseable e) => some e
      | _ => none
    else none
  match hit with
  | some e =>
    -- cached_data["metadata"]["fromCache"] = True; return cached_data
    { envelope := { e with metadata := { e.metadata with fromCache := true } }
      cache := cache, docOpened := false, docClosed := false, pagesExtracted := 0 }
  | none =>
    match file.openResult with
    | .error msg =>
      -- fitz.open raised; caught by the except-block, close never reached
      { envelope := { segments := [],
                      metadata := { md0 with processingTimeMs := elapsedMs },
                      error := some msg }
        cache := cache, docOpened := false, docClosed := false, pagesExtracted := 0 }
    | .ok pages =>
      let n := pages.length
      match collectBlocks pages (pageIdxs startPage endPage n) with
      | .error (msg, cnt) =>
        -- a page raised; caught by the except-block, close never reached
        { envelope :=
            { segments := []
              metadata := { md0 with pageCount := n, processingTimeMs := elapsedMs }
              error := some msg }
          cache := cache, docOpened := true, docClosed := false,
          pagesExtracted := cnt }
      | .ok (blocks, cnt) =>
        let segs := process_blocks blocks
        -- the envelope as it stands when json.dump serializes it: the
        -- processingTimeMs update at line 139 happens after the dump
        let envAtStore : Envelope :=
          { segments := segs, metadata := { md0 with pageCount := n } }
        let cache' :=
          if useCache && cds && !storeFails then
            cacheStore cache file.digest envAtStore
          else cache
        { envelope := { envAtStore with
                        metadata := { envAtStore.metadata with
                                      processingTimeMs := elapsedMs } }
          cache := cache', docOpened := true, docClosed := true,
          pagesExtracted := cnt }
-- note: `pagesExtracted` counts `page.get_text` calls, so on the success
-- path it equals `(pageIdxs startPage endPage n).length` by construction

/-- The `initialSegments` assignment of `batch_process_pdf`: set to the
slice `segments[start : end + 1]` of the first batch when at least one batch
exists; when `result["batches"]` is empty the key is never assigned
(`none`). -/
def initialOf (segs : List Segment) (k : Nat) : Option (List Segment) :=
  match mkBatches segs k with
  | [] => none
  | fb :: _ => some (pySlice segs fb.startSegmentId (fb.endSegmentId + 1))

/-- `PDFProcessor.batch_process_pdf`. -/
def batch_process_pdf (cds : Bool) (file : PdfFile) (k : Nat)
    (useCache : Bool) (cache : Cache) (elapsedMs : Nat) (storeFails : Bool) :
    ExtractResult :=
  let r := extract_text_from_pdf cds file 0 (-1) useCache cache elapsedMs storeFails
  let e := r.envelope
  let segs := if e.error = none then segment_into_sentences e.segments else e.segments
  let batches := mkBatches segs k
  let initSegs : Option (List Segment) := initialOf segs k
  { r with
    envelope := { e with
                  segments := segs
                  batches := some batches
                  initialSegments := initSegs
                  metadata := { e.metadata with
                                totalSegments := some segs.length
                                batchCount := some batches.length } } }

/-!
## Sequences of calls against one cache directory

Used to reason about what shapes of envelope the persisted cache can ever
hold.  Each operation is one call of one of the two entry points, with its
per-call external inputs (document content, elapsed time, whether the
best-effort cache write raises). -/

inductive PdfOp where
  | plain (file : PdfFile) (startPage : Nat) (endPage : Int) (useCache : Bool)
      (elapsedMs : Nat) (storeFails : Bool)
  | batched (file : PdfFile) (k : Nat) (useCache : Bool) (elapsedMs : Nat)
      (storeFails : Bool)

/-- The cache directory state after one call. -/
def runOp (cds : Bool) (cache : Cache) : PdfOp → Cache
  | .plain f sp ep uc t sf => (extract_text_from_pdf cds f sp ep uc cache t sf).cache
  | .batched f k uc t sf => (batch_process_pdf cds f k uc cache t sf).cache

/-- The cache directory state after a sequence of calls. -/
def runOps (cds : Bool) (cache : Cache) : List PdfOp → Cache
  | [] => cache
  | op :: ops => runOps cds (runOp cds cache op) ops

/-- The "plain" envelope shape: what `extract_text_from_pdf` produces and
serializes — no `batches`, no `initialSegments`, no `totalSegments` /
`batchCount` / `fromCache` metadata, and no sentence-split segments (no
`original_segment_id` keys). -/
def PlainShape (e : Envelope) : Prop :=
  e.batches = none ∧ e.initialSegments = none ∧
  e.metadata.totalSegments = none ∧ e.metadata.batchCount = none ∧
  e.metadata.fromCache = false ∧
  ∀ s ∈ e.segments, s.original_segment_id = none

/-- Claim C4's asserted post-state: some persisted entry holds a batched,
sentence-split envelope. -/
def cacheHoldsBatched (c : Cache) : Prop :=
  ∃ d e, c d = some (.parseable e) ∧ e.batches ≠ none

/-- The non-whitespace characters of a string, in order ("the text with
whitespace removed"). -/
def inkOf (s : Str) : Str := s.filter (fun c => !isWs c)

/-- The concatenated source texts of a segment list. -/
def joinSources (l : List Segment) : Str := (l.map Segment.source).flatten

/-!
## Properties of `pyStrip`
-/

theorem inkOf_dropWhile (l : Str) : inkOf (l.dropWhile isWs) = inkOf l := by
  induction l with
  | nil => rfl
  | cons c cs ih =>
    by_cases h : isWs c = true
    · simp only [inkOf, List.dropWhile_cons, h, if_true, List.filter_cons,
        Bool.not_true, Bool.false_eq_true, if_false] at *
      exact ih
    · simp [List.dropWhile_cons, h]

theorem inkOf_reverse (l : Str) : inkOf l.reverse = (inkOf l).reverse := by
  simp [inkOf, List.filter_reverse]

theorem inkOf_pyStrip (l : Str) : inkOf (pyStrip l) = inkOf l := by
  unfold pyStrip
  rw [inkOf_reverse, inkOf_dropWhile, inkOf_reverse, inkOf_dropWhile,
    List.reverse_reverse]

theorem inkOf_append (l m : Str) : inkOf (l ++ m) = inkOf l ++ inkOf m := by
  simp [inkOf, List.filter_append]

theorem pyStrip_eq_nil_iff (l : Str) : pyStrip l = [] ↔ inkOf l = [] := by
  constructor
  · intro h
    rw [← inkOf_pyStrip, h]; rfl
  · intro h
    have hall : ∀ c ∈ l, isWs c = true := by
      intro c hc
      by_contra hw
      have : c ∈ inkOf l := by
        simp only [inkOf, List.mem_filter]
        exact ⟨hc, by simpa using hw⟩
      rw [h] at this
      exact absurd this (List.not_mem_nil c)
    unfold pyStrip
    rw [List.dropWhile_eq_nil_iff.mpr hall]
    rfl

theorem dropWhile_append_singleton {p : Char → Bool} {a : Char} (h : p a = false)
    (l : Str) : (l ++ [a]).dropWhile p = l.dropWhile p ++ [a] := by
  induction l with
  | nil => simp [List.dropWhile_cons, h]
  | cons c cs ih =>
    by_cases hc : p c = true
    · simp [List.dropWhile_cons, hc, ih]
    · simp [List.dropWhile_cons, hc]

theorem dropWhile_head_false {p : Char → Bool} {l as : Str} {a : Char}
    (h : l.dropWhile p = a :: as) : p a = false := by
  induction l with
  | nil => simp at h
  | cons c cs ih =>
    by_cases hc : p c = true
    · rw [List.dropWhile_cons, if_pos hc] at h
      exact ih h
    · rw [List.dropWhile_cons, if_neg hc] at h
      cases h
      simpa using hc

theorem dropWhile_eq_self_of_head {p : Char → Bool} {l : Str}
    (h : ∀ a as, l = a :: as → p a = false) : l.dropWhile p = l := by
  cases l with
  | nil => rfl
  | cons c cs => rw [List.dropWhile_cons, if_neg (by simp [h c cs rfl])]

theorem pyStrip_idem (l : Str) : pyStrip (pyStrip l) = pyStrip l := by
  rcases hd : l.dropWhile isWs with _ | ⟨a, as⟩
  · have h1 : pyStrip l = [] := by unfold pyStrip; rw [hd]; rfl
    rw [h1]; rfl
  · have ha : isWs a = false := dropWhile_head_false hd
    obtain ⟨B, hB⟩ : ∃ B, as.reverse.dropWhile isWs = B := ⟨_, rfl⟩
    have h1 : pyStrip l = a :: B.reverse := by
      unfold pyStrip
      rw [hd]
      simp only [List.reverse_cons]
      rw [dropWhile_append_singleton ha, hB]
      simp
    have hBhead : ∀ b bs, B = b :: bs → isWs b = false := by
      intro b bs h
      exact dropWhile_head_false (h ▸ hB)
    have hBa : (B ++ [a]).dropWhile isWs = B ++ [a] := by
      cases hBv : B with
      | nil => simp [List.dropWhile_cons, ha]
      | cons b bs =>
        have hb : isWs b = false := hBhead b bs hBv
        simp [List.dropWhile_cons, hb]
    rw [h1]
    unfold pyStrip
    rw [List.dropWhile_cons, if_neg (by simp [ha])]
    simp only [List.reverse_cons, List.reverse_reverse]
    rw [hBa]
    simp

/-!
## Conservation of non-whitespace content through sentence splitting
-/

theorem inkOf_eq_nil_of_all_ws {l : Str} (h : ∀ c ∈ l, isWs c = true) :
    inkOf l = [] := by
  simp only [inkOf, List.filter_eq_nil_iff]
  intro c hc
  simp [h c hc]

theorem splitAux_flatten_ink (l : Str) : ∀ (p : Bool) (ws acc : Str),
    (∀ c ∈ ws, isWs c = true) →
    inkOf (splitAux p ws acc l).flatten = inkOf (acc ++ ws ++ l) := by
  induction l with
  | nil =>
    intro p ws acc hws
    simp [splitAux, inkOf_append]
  | cons c cs ih =>
    intro p ws acc hws
    by_cases hc : isWs c = true
    · rw [splitAux, if_pos hc]
      rw [ih p (ws ++ [c]) acc (by
        intro x hx
        rcases List.mem_append.mp hx with h | h
        · exact hws x h
        · simp only [List.mem_singleton] at h; subst h; exact hc)]
      simp [inkOf_append]
    · rw [splitAux, if_neg hc]
      by_cases hsplit : (p && !ws.isEmpty && isUpperOrHangul c) = true
      · rw [if_pos hsplit]
        rw [List.flatten_cons, inkOf_append,
          ih (isSentEnd c) [] [c] (by intro x hx; simp at hx)]
        have hwsnil : inkOf ws = [] := inkOf_eq_nil_of_all_ws hws
        simp [inkOf_append, hwsnil, inkOf, List.filter_cons, hc]
        exact hws
      · rw [if_neg hsplit]
        rw [ih (isSentEnd c) [] (acc ++ ws ++ [c]) (by intro x hx; simp at hx)]
        simp [inkOf_append]

theorem splitChars_flatten_ink (s : Str) :
    inkOf (splitChars s).flatten = inkOf s := by
  rw [splitChars, splitAux_flatten_ink s false [] [] (by intro x hx; simp at hx)]
  simp

theorem inkOf_flatten (ps : List Str) :
    inkOf ps.flatten = (ps.map inkOf).flatten := by
  induction ps with
  | nil => rfl
  | cons p ps ih => simp [List.flatten_cons, inkOf_append, ih]

theorem cleanSentences_flatten_ink (ps : List Str) :
    inkOf (cleanSentences ps).flatten = inkOf ps.flatten := by
  induction ps with
  | nil => rfl
  | cons p ps ih =>
    by_cases hp : (pyStrip p).isEmpty = true
    · have hnil : pyStrip p = [] := by
        cases h : pyStrip p with
        | nil => rfl
        | cons a l => rw [h] at hp; simp at hp
      have : inkOf p = [] := (pyStrip_eq_nil_iff p).mp hnil
      simp only [cleanSentences, List.filter_cons, hp, Bool.not_true,
        Bool.false_eq_true, if_false] at *
      rw [ih, List.flatten_cons, inkOf_append, this]
      simp
    · simp only [cleanSentences, List.filter_cons, hp, Bool.not_false,
        if_true, List.map_cons, List.flatten_cons, inkOf_append] at *
      rw [inkOf_pyStrip, ih]

theorem cleanSentences_ne_nil {s : Str} (h : pyStrip s ≠ []) :
    cleanSentences (splitChars s) ≠ [] := by
  intro hnil
  apply h
  rw [pyStrip_eq_nil_iff]
  have h1 : inkOf (cleanSentences (splitChars s)).flatten = inkOf s := by
    rw [cleanSentences_flatten_ink, splitChars_flatten_ink]
  rw [hnil] at h1
  exact h1.symm.trans rfl |>.symm ▸ h1.symm

/-!
## Structure of `emitSentences` / `sentAux` / `processBlocksAux` output
-/

theorem emitSentences_map_source (seg : Segment) : ∀ (ss : List Str) (sid : Nat),
    (emitSentences seg sid ss).map Segment.source = ss := by
  intro ss
  induction ss with
  | nil => intro sid; rfl
  | cons s ss ih => intro sid; simp [emitSentences, ih]

theorem emitSentences_length (seg : Segment) (ss : List Str) (sid : Nat) :
    (emitSentences seg sid ss).length = ss.length := by
  rw [← List.length_map (emitSentences seg sid ss) Segment.source,
    emitSentences_map_source]

theorem emitSentences_map_id (seg : Segment) : ∀ (ss : List Str) (sid : Nat),
    (emitSentences seg sid ss).map Segment.id = List.range' sid ss.length := by
  intro ss
  induction ss with
  | nil => intro sid; rfl
  | cons s ss ih => intro sid; simp [emitSentences, ih, List.range'_succ]

theorem emitSentences_mem (seg : Segment) : ∀ (ss : List Str) (sid : Nat)
    (s' : Segment), s' ∈ emitSentences seg sid ss →
    s'.original_segment_id = some seg.id ∧ s'.source ∈ ss := by
  intro ss
  induction ss with
  | nil => intro sid s' h; simp [emitSentences] at h
  | cons s ss ih =>
    intro sid s' h
    rw [emitSentences] at h
    rcases List.mem_cons.mp h with h | h
    · subst h; simp
    · obtain ⟨h1, h2⟩ := ih (sid + 1) s' h
      exact ⟨h1, List.mem_cons_of_mem s h2⟩

theorem sentAux_map_id : ∀ (segs : List Segment) (sid : Nat),
    (sentAux sid segs).map Segment.id =
      List.range' sid (sentAux sid segs).length := by
  intro segs
  induction segs with
  | nil => intro sid; rfl
  | cons seg rest ih =>
    intro sid
    rw [sentAux]
    by_cases h : (cleanSentences (splitChars seg.source)).isEmpty = true
    · rw [if_pos h]
      simp only [List.map_cons, List.length_cons, ih (sid + 1)]
      rw [List.range'_succ]
    · rw [if_neg h]
      rw [List.map_append, emitSentences_map_id, ih, List.length_append,
        emitSentences_length]
      have := List.range'_append sid (cleanSentences (splitChars seg.source)).length
        (sentAux (sid + (cleanSentences (splitChars seg.source)).length) rest).length 1
      simp only [one_mul, Nat.mul_one] at this ⊢
      rw [this]
      ring_nf

theorem segment_into_sentences_map_id (segs : List Segment) :
    (segment_into_sentences segs).map Segment.id =
      List.range (segment_into_sentences segs).length := by
  rw [segment_into_sentences, sentAux_map_id, List.range_eq_range']

theorem processBlocksAux_map_id : ∀ (l : List Block) (sid : Nat),
    (processBlocksAux sid l).map Segment.id =
      List.range' sid (processBlocksAux sid l).length := by
  intro l
  induction l with
  | nil => intro sid; rfl
  | cons b rest ih =>
    intro sid
    rw [processBlocksAux]
    by_cases h1 : b.btype ≠ 0
    · rw [if_pos h1]; exact ih sid
    · rw [if_neg h1]
      simp only
      by_cases h2 : (blockLines b).isEmpty = true
      · rw [if_pos h2]; exact ih sid
      · rw [if_neg h2]
        by_cases h3 : (pyStrip (joinSpace (blockLines b))).isEmpty = true
        · rw [if_pos h3]; exact ih sid
        · rw [if_neg h3]
          by_cases h4 : (matchAllDigits (pyStrip (joinSpace (blockLines b))) ||
              (pyStrip (joinSpace (blockLines b))).length < 5) = true
          · rw [if_pos h4]; exact ih sid
          · rw [if_neg h4]
            simp only [List.map_cons, List.length_cons, mkSegment]
            rw [ih (sid + 1), List.range'_succ]

theorem process_blocks_map_id (blocks : List Block) :
    (process_blocks blocks).map Segment.id =
      List.range (process_blocks blocks).length := by
  rw [process_blocks, processBlocksAux_map_id, List.range_eq_range']

/-- Every segment emitted by the block loop: its source is the stripped,
non-empty, non-all-digit, length-`≥ 5` joined text, and it carries no
`original_segment_id`. -/
theorem processBlocksAux_mem : ∀ (l : List Block) (sid : Nat) (s : Segment),
    s ∈ processBlocksAux sid l →
    matchAllDigits s.source = false ∧ 5 ≤ s.source.length ∧
    pyStrip s.source = s.source ∧ s.source ≠ [] ∧
    s.original_segment_id = none := by
  intro l
  induction l with
  | nil => intro sid s h; simp [processBlocksAux] at h
  | cons b rest ih =>
    intro sid s h
    rw [processBlocksAux] at h
    by_cases h1 : b.btype ≠ 0
    · rw [if_pos h1] at h; exact ih sid s h
    · rw [if_neg h1] at h
      simp only at h
      by_cases h2 : (blockLines b).isEmpty = true
      · rw [if_pos h2] at h; exact ih sid s h
      · rw [if_neg h2] at h
        by_cases h3 : (pyStrip (joinSpace (blockLines b))).isEmpty = true
        · rw [if_pos h3] at h; exact ih sid s h
        · rw [if_neg h3] at h
          by_cases h4 : (matchAllDigits (pyStrip (joinSpace (blockLines b))) ||
              (pyStrip (joinSpace (blockLines b))).length < 5) = true
          · rw [if_pos h4] at h; exact ih sid s h
          · rw [if_neg h4] at h
            rcases List.mem_cons.mp h with h | h
            · subst h
              simp only [Bool.or_eq_true, not_or] at h4
              obtain ⟨hd, hl⟩ := h4
              simp only [mkSegment]
              refine ⟨by simpa using hd, by simpa using hl, pyStrip_idem _, ?_, by trivial⟩
              intro hnil
              rw [hnil] at h3
              exact h3 rfl
            · exact ih (sid + 1) s h

theorem cleanSentences_mem {ps : List Str} {t : Str} (h : t ∈ cleanSentences ps) :
    pyStrip t = t ∧ t ≠ [] := by
  rw [cleanSentences] at h
  obtain ⟨p, hp, rfl⟩ := List.mem_map.mp h
  have hkeep := (List.mem_filter.mp hp).2
  have hne : pyStrip p ≠ [] := by
    intro hnil
    rw [hnil] at hkeep
    simp at hkeep
  exact ⟨pyStrip_idem p, hne⟩

theorem sentAux_ink : ∀ (segs : List Segment) (sid : Nat),
    inkOf (joinSources (sentAux sid segs)) = inkOf (joinSources segs) := by
  intro segs
  induction segs with
  | nil => intro sid; rfl
  | cons seg rest ih =>
    intro sid
    rw [sentAux]
    by_cases h : (cleanSentences (splitChars seg.source)).isEmpty = true
    · rw [if_pos h]
      simp only [joinSources, List.map_cons, List.flatten_cons, inkOf_append]
      rw [← joinSources, ← joinSources, ih (sid + 1)]
    · rw [if_neg h]
      simp only [joinSources, List.map_append, List.flatten_append, inkOf_append,
        List.map_cons, List.flatten_cons]
      rw [emitSentences_map_source, ← joinSources, ← joinSources,
        ih (sid + (cleanSentences (splitChars seg.source)).length),
        cleanSentences_flatten_ink, splitChars_flatten_ink]

theorem segment_into_sentences_ink (segs : List Segment) :
    inkOf (joinSources (segment_into_sentences segs)) = inkOf (joinSources segs) := by
  rw [segment_into_sentences, sentAux_ink]

theorem sentAux_mem_stripped : ∀ (segs : List Segment) (sid : Nat),
    (∀ t ∈ segs, pyStrip t.source ≠ []) →
    ∀ s ∈ sentAux sid segs, pyStrip s.source = s.source ∧ s.source ≠ [] := by
  intro segs
  induction segs with
  | nil => intro sid _ s h; simp [sentAux] at h
  | cons seg rest ih =>
    intro sid hall s h
    rw [sentAux] at h
    have hseg : pyStrip seg.source ≠ [] := hall seg (List.mem_cons_self seg rest)
    have hne : cleanSentences (splitChars seg.source) ≠ [] := cleanSentences_ne_nil hseg
    rw [if_neg (by simpa using hne)] at h
    rcases List.mem_append.mp h with h | h
    · have hsrc := (emitSentences_mem seg _ sid s h).2
      exact cleanSentences_mem hsrc
    · exact ih _ (fun t ht => hall t (List.mem_cons_of_mem seg ht)) s h

/-!
## Claim theorems
-/

/-- C3: for every list of input blocks, the segment ids produced by
`_process_blocks` are exactly `0..n-1` in emission order, and likewise the
ids produced by `segment_into_sentences` are renumbered `0..n-1` from
scratch (not inherited). -/
theorem C3_ids_contiguous (blocks : List Block) (segs : List Segment) :
    (process_blocks blocks).map Segment.id =
      List.range (process_blocks blocks).length ∧
    (segment_into_sentences segs).map Segment.id =
      List.range (segment_into_sentences segs).length :=
  ⟨process_blocks_map_id blocks, segment_into_sentences_map_id segs⟩

/-- C8: no segment emitted by `_process_blocks` has a source whose trimmed
text is entirely digits or shorter than 5 characters. -/
theorem C8_noise_dropped (blocks : List Block) (s : Segment)
    (h : s ∈ process_blocks blocks) :
    matchAllDigits (pyStrip s.source) = false ∧ 5 ≤ (pyStrip s.source).length := by
  obtain ⟨hd, hl, hstrip, _, _⟩ := processBlocksAux_mem _ 0 s h
  rw [hstrip]
  exact ⟨hd, hl⟩

/-- A one-page, one-block document used as a concrete witness input. -/
def blockW : Block :=
  { btype := 0, bbox := (0, 1, 2, 3)
    lines := [{ spans := [{ text := "Hello there. Great stuff.".data }] }]
    page := 0 }

/-- The segment `_process_blocks [blockW]` emits. -/
def segW : Segment :=
  { id := 0, source := "Hello there. Great stuff.".data, page := 1
    bbox := (0, 1, 2, 3), position := (0, 1, 2, 2) }

theorem C8_noise_dropped_witness :
    matchAllDigits (pyStrip segW.source) = false ∧
    5 ≤ (pyStrip segW.source).length :=
  C8_noise_dropped [blockW] segW (by decide)

/-- C10 (amended): every segment emitted by `_process_blocks` has a
non-empty source with no surrounding whitespace; the same holds for
`segment_into_sentences` provided every input segment's source strips to a
non-empty string (as every `_process_blocks` output does) — a segment whose
source is entirely whitespace is passed through unchanged, not stripped or
discarded. -/
theorem C10_sources_stripped :
    (∀ blocks : List Block, ∀ s ∈ process_blocks blocks,
      s.source ≠ [] ∧ pyStrip s.source = s.source) ∧
    (∀ segs : List Segment, (∀ t ∈ segs, pyStrip t.source ≠ []) →
      ∀ s ∈ segment_into_sentences segs,
        s.source ≠ [] ∧ pyStrip s.source = s.source) := by
  constructor
  · intro blocks s h
    obtain ⟨_, _, hstrip, hne, _⟩ := processBlocksAux_mem _ 0 s h
    exact ⟨hne, hstrip⟩
  · intro segs hall s h
    obtain ⟨h1, h2⟩ := sentAux_mem_stripped segs 0 hall s h
    exact ⟨h2, h1⟩

/-- A segment whose source is a single space (as can occur in arbitrary
input to `segment_into_sentences`, though not in `_process_blocks`
output). -/
def segWsOnly : Segment :=
  { id := 7, source := [' '], page := 1, bbox := (0, 0, 0, 0)
    position := (0, 0, 0, 0) }

/-- C10 counterexample: on a segment whose source is `" "`, the splitter
keeps the segment as-is, so the emitted source carries surrounding
whitespace (and strips to empty) — the claim fails as stated for
`segment_into_sentences` on unrestricted input. -/
theorem C10_sources_stripped_counterexample :
    ¬ ∀ s ∈ segment_into_sentences [segWsOnly],
        s.source ≠ [] ∧ pyStrip s.source = s.source := by
  decide

/-- The first segment `segment_into_sentences [segW]` emits. -/
def segWsplit : Segment :=
  { id := 0, source := "Hello there.".data, page := 1
    bbox := (0, 1, 2, 3), position := (0, 1, 2, 2)
    original_segment_id := some 0 }

theorem C10_sources_stripped_witness :
    (segW.source ≠ [] ∧ pyStrip segW.source = segW.source) ∧
    (segWsplit.source ≠ [] ∧ pyStrip segWsplit.source = segWsplit.source) :=
  ⟨C10_sources_stripped.1 [blockW] segW (by decide),
   C10_sources_stripped.2 [segW] (by decide) segWsplit (by decide)⟩

/-- C6 counterexample: on a segment whose source is `" "` (id 7), the
splitter takes the keep-original branch, so the emitted segment has no
`original_segment_id` at all — "every emitted segment has
`original_segment_id` set to the parent's pre-renumbering id" fails. -/
theorem C6_split_counterexample :
    ¬ ∀ s ∈ segment_into_sentences [segWsOnly],
        s.original_segment_id = some segWsOnly.id := by
  decide

/-- C6 (amended): sentence splitting never loses non-whitespace character
content (the concatenated output sources, whitespace removed, equal the
concatenated input sources, whitespace removed), and whenever an input
segment's source strips to a non-empty string, every segment emitted for it
carries `original_segment_id` = the parent's pre-renumbering id; a segment
whose source is entirely whitespace is instead kept unchanged (renumbered
only), with no `original_segment_id` added. -/
theorem C6_split_conservation :
    (∀ segs : List Segment,
      inkOf (joinSources (segment_into_sentences segs)) =
        inkOf (joinSources segs)) ∧
    (∀ seg : Segment, pyStrip seg.source ≠ [] →
      ∀ s ∈ segment_into_sentences [seg],
        s.original_segment_id = some seg.id) := by
  constructor
  · exact segment_into_sentences_ink
  · intro seg hne s h
    rw [segment_into_sentences, sentAux,
      if_neg (by simpa using cleanSentences_ne_nil hne)] at h
    rcases List.mem_append.mp h with h | h
    · exact (emitSentences_mem seg _ 0 s h).1
    · rw [sentAux] at h
      exact absurd h (List.not_mem_nil s)

/-- A segment with a real two-sentence source, used as a concrete witness
input for the splitter. -/
def segTwoSent : Segment :=
  { id := 3, source := "One more line. Two more lines.".data, page := 2
    bbox := (0, 4, 9, 8), position := (0, 4, 9, 4) }

theorem C6_split_conservation_witness :
    inkOf (joinSources (segment_into_sentences [segTwoSent])) =
      inkOf (joinSources [segTwoSent]) ∧
    ∀ s ∈ segment_into_sentences [segTwoSent],
      s.original_segment_id = some segTwoSent.id :=
  ⟨C6_split_conservation.1 [segTwoSent],
   C6_split_conservation.2 segTwoSent (by decide)⟩

/-!
## Batching arithmetic
-/

theorem firstId_eq {l : List Segment} (h : 0 < l.length) : firstId l = l[0].id := by
  cases l with
  | nil => simp at h
  | cons s t => rfl

theorem lastId_eq {l : List Segment} (h : 0 < l.length) :
    lastId l = l[l.length - 1].id := by
  unfold lastId
  rw [List.getLast?_eq_getElem?, List.getElem?_eq_getElem (by omega)]

/-- C5: on a segment list with contiguous ids `0..n-1` and a positive batch
size `k`, `batch_process_pdf`'s batch loop produces `⌈n/k⌉` descriptors with
`batchId` ascending from 0, covering the id ranges
`[j*k, min((j+1)*k, n) - 1]` — contiguous, non-overlapping, jointly covering
`0..n-1` exactly once, each of size `k` except possibly the last. -/
theorem C5_batch_partition (segs : List Segment) (k : Nat) (hk : 1 ≤ k)
    (hid : ∀ i (h : i < segs.length), segs[i].id = i) :
    (mkBatches segs k).length = (segs.length + k - 1) / k ∧
    ∀ j (hj : j < (mkBatches segs k).length),
      ((mkBatches segs k).get ⟨j, hj⟩).batchId = j ∧
      ((mkBatches segs k).get ⟨j, hj⟩).startSegmentId = j * k ∧
      ((mkBatches segs k).get ⟨j, hj⟩).endSegmentId =
        min ((j + 1) * k) segs.length - 1 ∧
      ((mkBatches segs k).get ⟨j, hj⟩).segmentCount =
        min ((j + 1) * k) segs.length - j * k ∧
      (j + 1 < (mkBatches segs k).length →
        ((mkBatches segs k).get ⟨j, hj⟩).segmentCount = k) := by
  have hlen : (mkBatches segs k).length = (segs.length + k - 1) / k := by
    simp [mkBatches]
  refine ⟨hlen, ?_⟩
  intro j hj
  have hjm : j < (segs.length + k - 1) / k := hlen ▸ hj
  have hjk : j * k < segs.length := by
    have h2 : (j + 1) * k ≤ segs.length + k - 1 :=
      (Nat.le_div_iff_mul_le (by omega)).mp hjm
    have h3 : (j + 1) * k = j * k + k := by ring
    omega
  have hchlen : ((segs.drop (j * k)).take k).length =
      min k (segs.length - j * k) := by
    simp [List.length_take, List.length_drop]
  have hpos : 0 < ((segs.drop (j * k)).take k).length := by
    rw [hchlen]; omega
  have hget : ∀ i (hi : i < ((segs.drop (j * k)).take k).length),
      ((segs.drop (j * k)).take k)[i].id = j * k + i := by
    intro i hi
    have h1 : i < (segs.drop (j * k)).length := by
      rw [List.length_take] at hi
      exact Nat.lt_of_lt_of_le hi (min_le_right _ _)
    have h2 : j * k + i < segs.length := by
      rw [List.length_drop] at h1; omega
    rw [List.getElem_take, List.getElem_drop]
    exact hid (j * k + i) h2
  have helem : (mkBatches segs k).get ⟨j, hj⟩ =
      { batchId := j
        startSegmentId := firstId ((segs.drop (j * k)).take k)
        endSegmentId := lastId ((segs.drop (j * k)).take k)
        segmentCount := ((segs.drop (j * k)).take k).length } := by
    simp [mkBatches]
  have h3 : (j + 1) * k = j * k + k := by ring
  refine ⟨?_, ?_, ?_, ?_, ?_⟩
  · rw [helem]
  · rw [helem]
    show firstId ((segs.drop (j * k)).take k) = j * k
    rw [firstId_eq hpos, hget 0 hpos]
    omega
  · rw [helem]
    show lastId ((segs.drop (j * k)).take k) = min ((j + 1) * k) segs.length - 1
    rw [lastId_eq hpos, hget _ (by omega), hchlen]
    omega
  · rw [helem]
    show ((segs.drop (j * k)).take k).length =
      min ((j + 1) * k) segs.length - j * k
    rw [hchlen]
    omega
  · intro hj1
    rw [helem]
    show ((segs.drop (j * k)).take k).length = k
    have hjm1 : j + 1 < (segs.length + k - 1) / k := hlen ▸ hj1
    have h2 : (j + 2) * k ≤ segs.length + k - 1 :=
      (Nat.le_div_iff_mul_le (by omega)).mp hjm1
    have h4 : (j + 2) * k = j * k + k + k := by ring
    rw [hchlen]
    omega

/-- Three segments with contiguous ids, used as a concrete batching input. -/
def segsW : List Segment :=
  [{ id := 0, source := "Alpha text.".data, page := 1, bbox := (0, 0, 1, 1)
     position := (0, 0, 1, 1) },
   { id := 1, source := "Bravo text.".data, page := 1, bbox := (0, 1, 1, 2)
     position := (0, 1, 1, 1) },
   { id := 2, source := "Delta text.".data, page := 1, bbox := (0, 2, 1, 3)
     position := (0, 2, 1, 1) }]

theorem C5_batch_partition_witness :
    (mkBatches segsW 2).length = (segsW.length + 2 - 1) / 2 ∧
    ∀ j (hj : j < (mkBatches segsW 2).length),
      ((mkBatches segsW 2).get ⟨j, hj⟩).batchId = j ∧
      ((mkBatches segsW 2).get ⟨j, hj⟩).startSegmentId = j * 2 ∧
      ((mkBatches segsW 2).get ⟨j, hj⟩).endSegmentId =
        min ((j + 1) * 2) segsW.length - 1 ∧
      ((mkBatches segsW 2).get ⟨j, hj⟩).segmentCount =
        min ((j + 1) * 2) segsW.length - j * 2 ∧
      (j + 1 < (mkBatches segsW 2).length →
        ((mkBatches segsW 2).get ⟨j, hj⟩).segmentCount = 2) :=
  C5_batch_partition segsW 2 (by decide) (by decide)

/-!
## Orchestrator path lemmas
-/

/-- Cache-hit path: with caching enabled and a parseable entry present, the
call returns the cached envelope with `fromCache := true` added, without
opening the document or extracting any page, and leaves the cache
unchanged. -/
theorem extract_hit (file : PdfFile) (sp : Nat) (ep : Int) (cache : Cache)
    (t : Nat) (sf : Bool) (e : Envelope)
    (h : cache file.digest = some (.parseable e)) :
    extract_text_from_pdf true file sp ep true cache t sf =
      { envelope := { e with metadata := { e.metadata with fromCache := true } }
        cache := cache, docOpened := false, docClosed := false
        pagesExtracted := 0 } := by
  simp [extract_text_from_pdf, h]

/-- Cache-miss path, successful extraction: the returned envelope is a plain
success envelope whose serialized (stored) form has `processingTimeMs = 0`,
the document was opened and closed, and the cache gains exactly that stored
envelope (unless the best-effort write failed). -/
theorem extract_miss_success (file : PdfFile) (cache : Cache) (sp : Nat)
    (ep : Int) (t : Nat) (sf : Bool)
    (hmiss : cache file.digest = none)
    (hok : (extract_text_from_pdf true file sp ep true cache t sf).envelope.error
      = none) :
    ∃ (env : Envelope) (cnt : Nat),
      env = { segments := env.segments
              metadata := { fileName := file.name
                            pageCount := env.metadata.pageCount
                            processingTimeMs := 0
                            extractionMethod := "PyMuPDF" } } ∧
      extract_text_from_pdf true file sp ep true cache t sf =
        { envelope := { env with
            metadata := { env.metadata with processingTimeMs := t } }
          cache := if sf then cache else cacheStore cache file.digest env
          docOpened := true, docClosed := true, pagesExtracted := cnt } := by
  rcases hopen : file.openResult with msg | pages
  · exfalso
    simp [extract_text_from_pdf, hmiss, hopen] at hok
  · rcases hcoll : collectBlocks pages (pageIdxs sp ep pages.length)
      with ⟨msg, cnt⟩ | ⟨blocks, cnt⟩
    · exfalso
      simp [extract_text_from_pdf, hmiss, hopen, hcoll] at hok
    · refine ⟨{ segments := process_blocks blocks
                metadata := { fileName := file.name
                              pageCount := pages.length
                              processingTimeMs := 0
                              extractionMethod := "PyMuPDF" } }, cnt, rfl, ?_⟩
      simp only [extract_text_from_pdf, hmiss, hopen, hcoll]
      cases sf <;> rfl

theorem mkBatches_nil (k : Nat) : mkBatches [] k = [] := by
  unfold mkBatches
  have h : (([] : List Segment).length + k - 1) / k = 0 := by
    cases k with
    | zero => rfl
    | succ m =>
      simp only [List.length_nil, Nat.zero_add, Nat.add_sub_cancel]
      exact Nat.div_eq_of_lt (Nat.lt_succ_self m)
  rw [h]
  rfl

/-- C2 (amended): when the (cache-free or cache-hit) plain extraction yields
no error and no segments, the batched envelope has `segments = []`,
`batches = []` (key present, empty), **no** `initialSegments` key
(`if result["batches"]:` is false, so the key is never assigned), no error,
and `totalSegments = batchCount = 0`. -/
theorem C2_empty_envelope (cds : Bool) (file : PdfFile) (k : Nat)
    (useCache : Bool) (cache : Cache) (t : Nat) (sf : Bool)
    (herr : (extract_text_from_pdf cds file 0 (-1) useCache cache t sf).envelope.error
      = none)
    (hseg : (extract_text_from_pdf cds file 0 (-1) useCache cache t sf).envelope.segments
      = []) :
    (batch_process_pdf cds file k useCache cache t sf).envelope.segments = [] ∧
    (batch_process_pdf cds file k useCache cache t sf).envelope.batches = some [] ∧
    (batch_process_pdf cds file k useCache cache t sf).envelope.initialSegments
      = none ∧
    (batch_process_pdf cds file k useCache cache t sf).envelope.error = none ∧
    (batch_process_pdf cds file k useCache cache t sf).envelope.metadata.totalSegments
      = some 0 ∧
    (batch_process_pdf cds file k useCache cache t sf).envelope.metadata.batchCount
      = some 0 := by
  have hsegs : (if (extract_text_from_pdf cds file 0 (-1) useCache cache t sf).envelope.error = none
      then segment_into_sentences
        (extract_text_from_pdf cds file 0 (-1) useCache cache t sf).envelope.segments
      else (extract_text_from_pdf cds file 0 (-1) useCache cache t sf).envelope.segments) = [] := by
    rw [if_pos herr, hseg]
    rfl
  have hinit : initialOf ([] : List Segment) k = none := by
    unfold initialOf
    rw [mkBatches_nil]
  simp only [batch_process_pdf]
  rw [hsegs, mkBatches_nil, hinit]
  exact ⟨rfl, rfl, rfl, herr, rfl, rfl⟩

/-- A 0-page document. -/
def fileZero : PdfFile := { name := "empty.pdf", digest := "d0", openResult := .ok [] }

/-- C2 counterexample: on a 0-page document the batched envelope's
`initialSegments` key is absent (`none`), not the empty list the claim
asserts. -/
theorem C2_empty_envelope_counterexample :
    (batch_process_pdf true fileZero 10 true (fun _ => none) 0 false).envelope.initialSegments
      ≠ some [] := by
  decide

theorem C2_empty_envelope_witness :
    (batch_process_pdf true fileZero 10 true (fun _ => none) 0 false).envelope.segments = [] ∧
    (batch_process_pdf true fileZero 10 true (fun _ => none) 0 false).envelope.batches = some [] ∧
    (batch_process_pdf true fileZero 10 true (fun _ => none) 0 false).envelope.initialSegments = none ∧
    (batch_process_pdf true fileZero 10 true (fun _ => none) 0 false).envelope.error = none ∧
    (batch_process_pdf true fileZero 10 true (fun _ => none) 0 false).envelope.metadata.totalSegments = some 0 ∧
    (batch_process_pdf true fileZero 10 true (fun _ => none) 0 false).envelope.metadata.batchCount = some 0 :=
  C2_empty_envelope true fileZero 10 true (fun _ => none) 0 false (by decide) (by decide)

/-- A one-page, one-block document for the caching scenarios. -/
def fileC7 : PdfFile :=
  { name := "w.pdf", digest := "dw", openResult := .ok [.ok [blockW]] }

def runC7a : ExtractResult :=
  extract_text_from_pdf true fileC7 0 (-1) true (fun _ => none) 5 false

def runC7b : ExtractResult :=
  extract_text_from_pdf true fileC7 0 (-1) true runC7a.cache 3 false

/-- C7 counterexample: after a first extraction that took 5 ms, the second
(cache-hit) call's envelope is **not** the first envelope with only
`fromCache := true` added — its `processingTimeMs` is 0 (the value at
serialization time), not 5. -/
theorem C7_cached_roundtrip_counterexample :
    runC7b.envelope ≠
      { runC7a.envelope with
        metadata := { runC7a.envelope.metadata with fromCache := true } } := by
  decide

/-- C7 (amended): with caching enabled, after a successful cache-miss
extraction, a second call on the same content returns the first call's
envelope except that `metadata.fromCache = true` is added **and**
`metadata.processingTimeMs` is 0 (the entry is serialized before the elapsed
time is recorded); the cached entry is returned before any document is
opened, and no page is extracted. -/
theorem C7_cached_roundtrip (file : PdfFile) (cache : Cache) (t1 t2 : Nat)
    (sf2 : Bool)
    (hmiss : cache file.digest = none)
    (hok : (extract_text_from_pdf true file 0 (-1) true cache t1 false).envelope.error
      = none) :
    (extract_text_from_pdf true file 0 (-1) true
        (extract_text_from_pdf true file 0 (-1) true cache t1 false).cache
        t2 sf2).envelope =
      { (extract_text_from_pdf true file 0 (-1) true cache t1 false).envelope with
        metadata :=
          { (extract_text_from_pdf true file 0 (-1) true cache t1 false).envelope.metadata with
            fromCache := true, processingTimeMs := 0 } } ∧
    (extract_text_from_pdf true file 0 (-1) true
        (extract_text_from_pdf true file 0 (-1) true cache t1 false).cache
        t2 sf2).docOpened = false ∧
    (extract_text_from_pdf true file 0 (-1) true
        (extract_text_from_pdf true file 0 (-1) true cache t1 false).cache
        t2 sf2).pagesExtracted = 0 := by
  obtain ⟨env, cnt, hshape, heq⟩ :=
    extract_miss_success file cache 0 (-1) t1 false hmiss hok
  have hc : (extract_text_from_pdf true file 0 (-1) true cache t1 false).cache
      file.digest = some (.parseable env) := by
    rw [heq]
    simp [cacheStore]
  rw [extract_hit file 0 (-1) _ t2 sf2 env hc, heq]
  obtain ⟨segs, md, err, bat, init⟩ := env
  obtain ⟨fn, pc, ptm, em, fc, ts, bc⟩ := md
  simp only [Envelope.mk.injEq, Metadata.mk.injEq] at hshape
  obtain ⟨-, ⟨hfn, hpc, hptm, hem, hfc, hts, hbc⟩, herr2, hbat, hinit⟩ := hshape
  subst hfn hptm hem hfc hts hbc herr2 hbat hinit
  exact ⟨rfl, rfl, rfl⟩

theorem C7_cached_roundtrip_witness :
    (extract_text_from_pdf true fileC7 0 (-1) true
        (extract_text_from_pdf true fileC7 0 (-1) true (fun _ => none) 5 false).cache
        3 false).envelope =
      { (extract_text_from_pdf true fileC7 0 (-1) true (fun _ => none) 5 false).envelope with
        metadata :=
          { (extract_text_from_pdf true fileC7 0 (-1) true (fun _ => none) 5 false).envelope.metadata with
            fromCache := true, processingTimeMs := 0 } } ∧
    (extract_text_from_pdf true fileC7 0 (-1) true
        (extract_text_from_pdf true fileC7 0 (-1) true (fun _ => none) 5 false).cache
        3 false).docOpened = false ∧
    (extract_text_from_pdf true fileC7 0 (-1) true
        (extract_text_from_pdf true fileC7 0 (-1) true (fun _ => none) 5 false).cache
        3 false).pagesExtracted = 0 :=
  C7_cached_roundtrip fileC7 (fun _ => none) 5 3 false (by decide) (by decide)

/-- The fields `batch_process_pdf` adds, expressed as functions of the inner
plain extraction's envelope, on the no-error path. -/
theorem batch_of_extract (cds : Bool) (file : PdfFile) (k : Nat) (uc : Bool)
    (cache : Cache) (t : Nat) (sf : Bool)
    (hok : (extract_text_from_pdf cds file 0 (-1) uc cache t sf).envelope.error
      = none) :
    (batch_process_pdf cds file k uc cache t sf).envelope.segments =
      segment_into_sentences
        (extract_text_from_pdf cds file 0 (-1) uc cache t sf).envelope.segments ∧
    (batch_process_pdf cds file k uc cache t sf).envelope.batches =
      some (mkBatches (segment_into_sentences
        (extract_text_from_pdf cds file 0 (-1) uc cache t sf).envelope.segments) k) ∧
    (batch_process_pdf cds file k uc cache t sf).envelope.initialSegments =
      initialOf (segment_into_sentences
        (extract_text_from_pdf cds file 0 (-1) uc cache t sf).envelope.segments) k ∧
    (batch_process_pdf cds file k uc cache t sf).envelope.metadata.totalSegments =
      some (segment_into_sentences
        (extract_text_from_pdf cds file 0 (-1) uc cache t sf).envelope.segments).length ∧
    (batch_process_pdf cds file k uc cache t sf).envelope.metadata.batchCount =
      some (mkBatches (segment_into_sentences
        (extract_text_from_pdf cds file 0 (-1) uc cache t sf).envelope.segments) k).length ∧
    (batch_process_pdf cds file k uc cache t sf).envelope.metadata.fromCache =
      (extract_text_from_pdf cds file 0 (-1) uc cache t sf).envelope.metadata.fromCache ∧
    (batch_process_pdf cds file k uc cache t sf).envelope.error =
      (extract_text_from_pdf cds file 0 (-1) uc cache t sf).envelope.error := by
  have hsegs : (if (extract_text_from_pdf cds file 0 (-1) uc cache t sf).envelope.error = none
      then segment_into_sentences
        (extract_text_from_pdf cds file 0 (-1) uc cache t sf).envelope.segments
      else (extract_text_from_pdf cds file 0 (-1) uc cache t sf).envelope.segments) =
      segment_into_sentences
        (extract_text_from_pdf cds file 0 (-1) uc cache t sf).envelope.segments :=
    if_pos hok
  simp only [batch_process_pdf]
  rw [hsegs]
  refine ⟨?_, ?_, ?_, ?_, ?_, ?_, ?_⟩ <;> first | rfl | trivial

/-- C9: `batch_process_pdf`'s sentence splitting and batching run on the
plain envelope whether it came from a cache hit or a fresh extraction: for
the same plain segment list, the batched `segments`, `batches`,
`initialSegments`, `totalSegments` and `batchCount` agree on the two paths,
the cache-hit result being flagged `fromCache` and the fresh one not. -/
theorem C9_batch_paths_agree (file : PdfFile) (k : Nat) (c1 c2 : Cache)
    (e : Envelope) (t1 t2 : Nat) (sf1 sf2 : Bool)
    (hhit : c1 file.digest = some (.parseable e))
    (herr : e.error = none)
    (hmiss : c2 file.digest = none)
    (herr2 : (extract_text_from_pdf true file 0 (-1) true c2 t2 sf2).envelope.error
      = none)
    (hseg : (extract_text_from_pdf true file 0 (-1) true c2 t2 sf2).envelope.segments
      = e.segments) :
    (batch_process_pdf true file k true c1 t1 sf1).envelope.segments =
      (batch_process_pdf true file k true c2 t2 sf2).envelope.segments ∧
    (batch_process_pdf true file k true c1 t1 sf1).envelope.batches =
      (batch_process_pdf true file k true c2 t2 sf2).envelope.batches ∧
    (batch_process_pdf true file k true c1 t1 sf1).envelope.initialSegments =
      (batch_process_pdf true file k true c2 t2 sf2).envelope.initialSegments ∧
    (batch_process_pdf true file k true c1 t1 sf1).envelope.metadata.totalSegments =
      (batch_process_pdf true file k true c2 t2 sf2).envelope.metadata.totalSegments ∧
    (batch_process_pdf true file k true c1 t1 sf1).envelope.metadata.batchCount =
      (batch_process_pdf true file k true c2 t2 sf2).envelope.metadata.batchCount ∧
    (batch_process_pdf true file k true c1 t1 sf1).envelope.metadata.fromCache
      = true ∧
    (batch_process_pdf true file k true c2 t2 sf2).envelope.metadata.fromCache
      = false := by
  have heq1 := extract_hit file 0 (-1) c1 t1 sf1 e hhit
  have hok1 : (extract_text_from_pdf true file 0 (-1) true c1 t1 sf1).envelope.error
      = none := by
    rw [heq1]; exact herr
  have hs1 : (extract_text_from_pdf true file 0 (-1) true c1 t1 sf1).envelope.segments
      = e.segments := by
    rw [heq1]
  have hfc1 : (extract_text_from_pdf true file 0 (-1) true c1 t1 sf1).envelope.metadata.fromCache
      = true := by
    rw [heq1]
  obtain ⟨env, cnt, hshape, heq2⟩ :=
    extract_miss_success file c2 0 (-1) t2 sf2 hmiss herr2
  have hfc2 : (extract_text_from_pdf true file 0 (-1) true c2 t2 sf2).envelope.metadata.fromCache
      = false := by
    rw [heq2]
    exact congrArg (fun x => x.metadata.fromCache) hshape
  obtain ⟨hb1, hb2, hb3, hb4, hb5, hb6, _⟩ :=
    batch_of_extract true file k true c1 t1 sf1 hok1
  obtain ⟨hc1', hc2', hc3', hc4', hc5', hc6', _⟩ :=
    batch_of_extract true file k true c2 t2 sf2 herr2
  rw [hb1, hb2, hb3, hb4, hb5, hb6, hc1', hc2', hc3', hc4', hc5', hc6',
    hs1, hseg, hfc1, hfc2]
  refine ⟨?_, ?_, ?_, ?_, ?_, ?_, ?_⟩ <;> rfl

/-- A document whose only page raises inside `page.get_text`. -/
def fileBadPage : PdfFile :=
  { name := "bad.pdf", digest := "db", openResult := .ok [.error "bad page"] }

/-- C1 (code evaluation at the failing input): when a page raises after
`fitz.open` succeeded, the `except`-block returns the error envelope (with
elapsed time recorded) but `doc.close()` — which sits inside the `try`,
after the loop, with no `finally` — is never executed, so the handle is
*not* released before the call returns.  On the success path (last
conjunct) it is. -/
theorem C1_close_skipped_on_failure :
    (extract_text_from_pdf true fileBadPage 0 (-1) false (fun _ => none) 7 false).docOpened
      = true ∧
    (extract_text_from_pdf true fileBadPage 0 (-1) false (fun _ => none) 7 false).docClosed
      = false ∧
    (extract_text_from_pdf true fileBadPage 0 (-1) false (fun _ => none) 7 false).envelope.error
      = some "bad page" ∧
    (extract_text_from_pdf true fileBadPage 0 (-1) false (fun _ => none) 7 false).envelope.metadata.processingTimeMs
      = 7 ∧
    (extract_text_from_pdf true fileC7 0 (-1) false (fun _ => none) 7 false).docClosed
      = true := by
  refine ⟨?_, ?_, ?_, ?_, ?_⟩ <;> decide

/-!
## What the persisted cache can hold
-/

/-- One call's effect on the cache directory: either untouched, or one
plain (pre-split, pre-batch) envelope written under the file's digest. -/
theorem plainShape_fresh (file : PdfFile) (blocks : List Block) (n : Nat) :
    PlainShape
      { segments := process_blocks blocks
        metadata := { fileName := file.name, pageCount := n
                      processingTimeMs := 0, extractionMethod := "PyMuPDF" } } := by
  refine ⟨rfl, rfl, rfl, rfl, rfl, ?_⟩
  intro s hs
  exact (processBlocksAux_mem _ 0 s hs).2.2.2.2

theorem extract_cache_cases (cds : Bool) (file : PdfFile) (sp : Nat) (ep : Int)
    (uc : Bool) (cache : Cache) (t : Nat) (sf : Bool) :
    (extract_text_from_pdf cds file sp ep uc cache t sf).cache = cache ∨
    ∃ env, PlainShape env ∧
      (extract_text_from_pdf cds file sp ep uc cache t sf).cache =
        cacheStore cache file.digest env := by
  rcases uc <;> rcases cds <;> rcases sf <;>
    rcases hcache : cache file.digest with _ | ⟨e⟩ | _ <;>
      rcases hopen : file.openResult with msg | pages <;>
        first
          | (left; simp [extract_text_from_pdf, hcache, hopen]; done)
          | (rcases hcoll : collectBlocks pages (pageIdxs sp ep pages.length)
                with ⟨msg2, cnt⟩ | ⟨blocks, cnt⟩ <;>
              first
                | (left; simp [extract_text_from_pdf, hcache, hopen, hcoll];
                   done)
                | (right
                   refine ⟨_, plainShape_fresh file blocks pages.length, ?_⟩
                   simp [extract_text_from_pdf, hcache, hopen, hcoll]))

theorem cacheStore_plain_preserved {cache : Cache} {env : Envelope}
    {dg : String}
    (hc : ∀ d e, cache d = some (.parseable e) → PlainShape e)
    (henv : PlainShape env) :
    ∀ d e, (cacheStore cache dg env) d = some (.parseable e) → PlainShape e := by
  intro d e h
  unfold cacheStore at h
  by_cases hd : d = dg
  · rw [if_pos hd] at h
    simp only [Option.some.injEq, CacheEntry.parseable.injEq] at h
    exact h ▸ henv
  · rw [if_neg hd] at h
    exact hc d e h

/-- Invariant: starting from a cache directory whose parseable entries are
all plain, any sequence of plain/batched calls leaves only plain entries —
the batched call's sentence splitting and batching happen *after* the cache
write inside its inner plain extraction, and nothing ever writes the
batched envelope back. -/
theorem runOps_plain (cds : Bool) : ∀ (ops : List PdfOp) (cache : Cache),
    (∀ d e, cache d = some (.parseable e) → PlainShape e) →
    ∀ d e, (runOps cds cache ops) d = some (.parseable e) → PlainShape e := by
  intro ops
  induction ops with
  | nil => intro cache hc; exact hc
  | cons op ops ih =>
    intro cache hc
    rw [runOps]
    apply ih
    rcases op with ⟨f, sp, ep, uc, t, sf⟩ | ⟨f, k, uc, t, sf⟩
    · rcases extract_cache_cases cds f sp ep uc cache t sf with h | ⟨env, henv, h⟩
      · rw [runOp, h]; exact hc
      · rw [runOp, h]; exact cacheStore_plain_preserved hc henv
    · have hb : (batch_process_pdf cds f k uc cache t sf).cache =
          (extract_text_from_pdf cds f 0 (-1) uc cache t sf).cache := rfl
      rcases extract_cache_cases cds f 0 (-1) uc cache t sf with h | ⟨env, henv, h⟩
      · rw [runOp, hb, h]; exact hc
      · rw [runOp, hb, h]; exact cacheStore_plain_preserved hc henv

/-- C4 counterexample: starting from an empty cache directory, **no**
sequence of plain/batched calls ever leaves a persisted entry with the
batched, sentence-split envelope shape — the batched call's cache write (in
its inner plain extraction) happens before sentence splitting and batching,
and the batched envelope is never written back.  The claimed sequence does
not exist. -/
theorem C4_no_batched_entry_counterexample :
    ¬ ∃ ops : List PdfOp, cacheHoldsBatched (runOps true (fun _ => none) ops) := by
  rintro ⟨ops, d, e, hd, hb⟩
  exact hb (runOps_plain true ops (fun _ => none)
    (by intro d' e' h'; exact Option.noConfusion h') d e hd).1

/-- C4 (amended): the two operations do share one cache key per file
content, but every envelope the cache can ever hold (starting from a cache
whose parseable entries are plain) is the plain shape: no `batches`, no
`initialSegments`, no `totalSegments`/`batchCount`/`fromCache` metadata, no
sentence-split segments.  Consequently a subsequent plain extraction can
only ever receive a plain envelope from the cache, never a batched one. -/
theorem C4_cache_entries_plain (ops : List PdfOp) (cds : Bool) (c0 : Cache)
    (h0 : ∀ d e, c0 d = some (.parseable e) → PlainShape e) (d : String)
    (e : Envelope) (hd : runOps cds c0 ops d = some (.parseable e)) :
    PlainShape e :=
  runOps_plain cds ops c0 h0 d e hd

/-- The envelope a successful extraction of `fileC7` serializes to cache. -/
def envC7 : Envelope :=
  { segments := [segW]
    metadata := { fileName := "w.pdf", pageCount := 1, processingTimeMs := 0
                  extractionMethod := "PyMuPDF" } }

theorem C4_cache_entries_plain_witness : PlainShape envC7 :=
  C4_cache_entries_plain [.plain fileC7 0 (-1) true 4 false] true (fun _ => none)
    (fun _ _ h => Option.noConfusion h) "dw" envC7 (by decide)

/-- A cache directory already holding the plain envelope for `fileC7`. -/
def cacheC9 : Cache :=
  fun d => if d = "dw" then some (.parseable envC7) else none

theorem C9_batch_paths_agree_witness :
    (batch_process_pdf true fileC7 1 true cacheC9 4 false).envelope.segments =
      (batch_process_pdf true fileC7 1 true (fun _ => none) 6 false).envelope.segments ∧
    (batch_process_pdf true fileC7 1 true cacheC9 4 false).envelope.batches =
      (batch_process_pdf true fileC7 1 true (fun _ => none) 6 false).envelope.batches ∧
    (batch_process_pdf true fileC7 1 true cacheC9 4 false).envelope.initialSegments =
      (batch_process_pdf true fileC7 1 true (fun _ => none) 6 false).envelope.initialSegments ∧
    (batch_process_pdf true fileC7 1 true cacheC9 4 false).envelope.metadata.totalSegments =
      (batch_process_pdf true fileC7 1 true (fun _ => none) 6 false).envelope.metadata.totalSegments ∧
    (batch_process_pdf true fileC7 1 true cacheC9 4 false).envelope.metadata.batchCount =
      (batch_process_pdf true fileC7 1 true (fun _ => none) 6 false).envelope.metadata.batchCount ∧
    (batch_process_pdf true fileC7 1 true cacheC9 4 false).envelope.metadata.fromCache = true ∧
    (batch_process_pdf true fileC7 1 true (fun _ => none) 6 false).envelope.metadata.fromCache = false :=
  C9_batch_paths_agree fileC7 1 cacheC9 (fun _ => none) envC7 4 6 false false
    (by decide) (by decide) (by decide) (by decide) (by decide)
